import Mathlib

/-!
# Verification of the localhost-manager discovery/termination core

Shallow embedding of `src/list-localhosts.tsx`: the lsof tagged-record
parser, the address:port decoder, the base-listener construction, the
enrichment/sort/dedup aggregation pipeline, the kill-by-port resolution
loop, and the Docker port-string parser.  External process invocations
(execa calls) are modelled by passing their outcome (`Except` for
success/failure, stdout as a `String`) as explicit parameters.
JavaScript numbers are modelled exactly as rationals plus NaN and the
two infinities; `Number(string)` conversion follows the ECMAScript
StringToNumber algorithm (whitespace trim, empty string is 0, signed
decimal with fraction and exponent, `Infinity`, hex/octal/binary
prefixes).
-/

namespace LocalhostManager

/-- A JavaScript number: NaN, an infinity, or a finite value (modelled
as an exact rational; the float-precision idealisation is irrelevant at
the string lengths this program handles). -/
inductive JsNum where
  | nan : JsNum
  | inf (neg : Bool) : JsNum
  | num (q : ℚ) : JsNum
deriving DecidableEq, Repr, Inhabited

/-- The StrWhiteSpace characters recognised by JS `trim` and
`Number(string)`. -/
def isJsWhitespace (c : Char) : Bool :=
  c = ' ' || c = '\t' || c = '\n' || c = '\r' ||
  c.toNat = 11 || c.toNat = 12 || c.toNat = 0xa0 ||
  c.toNat = 0x2028 || c.toNat = 0x2029 || c.toNat = 0xfeff

/-- Strip JS whitespace from both ends of a character list. -/
def trimChars (cs : List Char) : List Char :=
  ((cs.dropWhile isJsWhitespace).reverse.dropWhile isJsWhitespace).reverse

/-- JS `String.prototype.trim`. -/
def jsTrim (s : String) : String :=
  String.mk (trimChars s.data)

/-- Value of a hexadecimal digit character. -/
def hexVal (c : Char) : Option ℕ :=
  if '0' ≤ c ∧ c ≤ '9' then some (c.toNat - 48)
  else if 'a' ≤ c ∧ c ≤ 'f' then some (c.toNat - 87)
  else if 'A' ≤ c ∧ c ≤ 'F' then some (c.toNat - 55)
  else none

/-- Value of a digit string in base `b` (`b` one of 2, 8, 16); `none`
if some character is not a digit of that base. -/
def radixVal (b : ℕ) (cs : List Char) : Option ℕ :=
  cs.foldl
    (fun acc c =>
      acc.bind fun a => (hexVal c).bind fun d =>
        if d < b then some (a * b + d) else none)
    (some 0)

/-- Decimal value of a digit character list (characters assumed to be
decimal digits). -/
def digitsToNat (ds : List Char) : ℕ :=
  ds.foldl (fun a c => a * 10 + (c.toNat - 48)) 0

/-- Value of a decimal literal with integer digits `ip`, fraction
digits `fp` and exponent `e`: mantissa times `10 ^ (e - |fp|)`.  Built
from `mkRat` and `Nat.pow` so that concrete values reduce in the
kernel. -/
def decValue (ip fp : List Char) (e : ℤ) : ℚ :=
  let m : ℕ := digitsToNat ip * Nat.pow 10 fp.length + digitsToNat fp
  let ez : ℤ := e - Int.ofNat fp.length
  if 0 ≤ ez then mkRat (Int.ofNat (m * Nat.pow 10 ez.toNat)) 1
  else mkRat (Int.ofNat m) (Nat.pow 10 (-ez).toNat)

/-- Parse an ExponentPart (possibly empty input means exponent 0);
`none` on trailing garbage. -/
def parseExp : List Char → Option ℤ
  | [] => some 0
  | c :: rest =>
    if c = 'e' ∨ c = 'E' then
      match rest with
      | '+' :: ds =>
        if ds ≠ [] ∧ ds.all Char.isDigit then some (digitsToNat ds) else none
      | '-' :: ds =>
        if ds ≠ [] ∧ ds.all Char.isDigit then some (-(Int.ofNat (digitsToNat ds))) else none
      | ds =>
        if ds ≠ [] ∧ ds.all Char.isDigit then some (digitsToNat ds) else none
    else none

/-- Parse an unsigned decimal literal (`DecimalDigits [. DecimalDigits]
[ExponentPart]` or `. DecimalDigits [ExponentPart]`), consuming the
whole input. -/
def parseUnsignedDec (cs : List Char) : Option ℚ :=
  let ip := cs.takeWhile Char.isDigit
  let r1 := cs.dropWhile Char.isDigit
  match r1 with
  | '.' :: r2 =>
    let fp := r2.takeWhile Char.isDigit
    let r3 := r2.dropWhile Char.isDigit
    if ip = [] ∧ fp = [] then none
    else (parseExp r3).map fun e => decValue ip fp e
  | _ =>
    if ip = [] then none else (parseExp r1).map fun e => decValue ip [] e

/-- Parse an unsigned decimal literal or `Infinity`, with the sign
already stripped. -/
def unsignedOrInf (cs : List Char) (neg : Bool) : JsNum :=
  if cs = "Infinity".data then .inf neg
  else
    match parseUnsignedDec cs with
    | some q => .num (if neg then -q else q)
    | none => .nan

/-- Parse a StrDecimalLiteral (optional sign, then decimal or
`Infinity`). -/
def parseSignedDec (cs : List Char) : JsNum :=
  match cs with
  | '+' :: rest => unsignedOrInf rest false
  | '-' :: rest => unsignedOrInf rest true
  | _ => unsignedOrInf cs false

/-- A non-decimal integer literal body (after `0x`/`0o`/`0b`). -/
def radixNum (b : ℕ) (cs : List Char) : JsNum :=
  if cs = [] then .nan
  else
    match radixVal b cs with
    | some n => .num (mkRat (Int.ofNat n) 1)
    | none => .nan

/-- ECMAScript `Number(string)` (ToNumber applied to a string). -/
def jsToNumber (s : String) : JsNum :=
  match trimChars s.data with
  | [] => .num (mkRat 0 1)
  | '0' :: x :: rest =>
    if x = 'x' ∨ x = 'X' then radixNum 16 rest
    else if x = 'o' ∨ x = 'O' then radixNum 8 rest
    else if x = 'b' ∨ x = 'B' then radixNum 2 rest
    else parseSignedDec ('0' :: x :: rest)
  | cs => parseSignedDec cs

/-- JS truthiness of a number (`0` and `NaN` are falsy). -/
def jsTruthyNum : JsNum → Bool
  | .nan => false
  | .inf _ => true
  | .num q => q ≠ 0

example : jsToNumber "3000" = .num (mkRat 3000 1) := by decide
example : jsToNumber "" = .num (mkRat 0 1) := by decide
example : jsToNumber "3.5" = .num (mkRat 7 2) := by decide
example : jsToNumber "-1" = .num (mkRat (-1) 1) := by decide
example : jsToNumber "abc" = .nan := by decide
example : jsToNumber "1e3" = .num (mkRat 1000 1) := by decide
example : jsToNumber " 12 " = .num (mkRat 12 1) := by decide
example : jsToNumber "0x10" = .num (mkRat 16 1) := by decide
example : jsToNumber "Infinity" = .inf false := by decide
example : jsToNumber "3000" = .num 3000 := by decide

/-- Split a character list at every occurrence of the character `c`
(the JS `String.prototype.split` behaviour for a one-character
separator). -/
def splitOnChar (c : Char) : List Char → List (List Char)
  | [] => [[]]
  | x :: xs =>
    match splitOnChar c xs with
    | [] => [[x]]
    | h :: t => if x = c then [] :: h :: t else (x :: h) :: t

/-- JS `split` with a one-character separator, on strings. -/
def jsSplitChar (c : Char) (s : String) : List String :=
  (splitOnChar c s.data).map String.mk

example : jsSplitChar '\n' "p1\nchello" = ["p1", "chello"] := by decide
example : jsSplitChar ',' "a, b," = ["a", " b", ""] := by decide

/-- Split at every non-overlapping occurrence of the two-character
connected-peer marker `->`, scanning left to right (JS
`split("->")`). -/
def splitArrow : List Char → List (List Char)
  | [] => [[]]
  | '-' :: '>' :: xs => [] :: splitArrow xs
  | x :: xs =>
    match splitArrow xs with
    | [] => [[x]]
    | h :: t => (x :: h) :: t

example : (splitArrow "a->b".data).map String.mk = ["a", "b"] := by decide

/-- JS `includes("->")`: does the string contain the connected-peer
marker? -/
def hasArrow : List Char → Bool
  | [] => false
  | '-' :: '>' :: _ => true
  | _ :: xs => hasArrow xs

/-- JS `includes` for a one-character needle. -/
def jsIncludesChar (c : Char) (s : String) : Bool :=
  s.data.contains c

/-- The two protocols enumerated by the discovery pipeline. -/
inductive Proto where
  | tcp : Proto
  | udp : Proto
deriving DecidableEq, Repr, Inhabited

/-- Intermediate per-process record produced by the lsof tagged-line
parser (`LsofRecord` in the source).  `pid` and `uid` hold the JS
number obtained from `Number(val)` when it was not NaN. -/
structure LsofRecord where
  pid : Option JsNum := none
  cmd : Option String := none
  uid : Option JsNum := none
  user : Option String := none
  names : List String := []
  proto : Proto
deriving DecidableEq, Repr

/-- JS truthiness of the flush guard `current.pid || current.cmd`:
an absent pid, pid 0 and an absent or empty command are all falsy. -/
def recTruthy (r : LsofRecord) : Bool :=
  (match r.pid with
   | some v => jsTruthyNum v
   | none => false) ||
  (match r.cmd with
   | some s => s ≠ ""
   | none => false)

/-- One step of the tagged-line loop in `getListeningByProto`
(lines 82–111 of the source): state is the optional current
accumulator plus the records emitted so far. -/
def lsofStep (proto : Proto) (st : Option LsofRecord × List LsofRecord)
    (line : String) : Option LsofRecord × List LsofRecord :=
  match line.data with
  | [] => st
  | tag :: rest =>
    let val := String.mk rest
    if tag = 'p' then
      let flushed :=
        match st.1 with
        | some r => if recTruthy r then st.2 ++ [r] else st.2
        | none => st.2
      let pid := jsToNumber val
      let fresh : LsofRecord :=
        { names := [], proto := proto,
          pid := if pid = .nan then none else some pid }
      (some fresh, flushed)
    else
      match st.1 with
      | none => st
      | some r =>
        let r' :=
          if tag = 'c' then { r with cmd := some val }
          else if tag = 'u' then
            let u := jsToNumber val
            if u = .nan then r else { r with uid := some u }
          else if tag = 'L' then { r with user := some val }
          else if tag = 'n' then { r with names := r.names ++ [val] }
          else r
        (some r', st.2)

/-- The end-of-input flush (line 112 of the source). -/
def lsofFinalize (st : Option LsofRecord × List LsofRecord) : List LsofRecord :=
  match st.1 with
  | some r => if recTruthy r then st.2 ++ [r] else st.2
  | none => st.2

/-- Parse the full tagged-line output of one lsof invocation, including
the end-of-input flush (lines 78–113 of the source). -/
def parseLsofLines (proto : Proto) (lines : List String) : List LsofRecord :=
  lsofFinalize (lines.foldl (lsofStep proto) (none, []))

/-- `getListeningByProto`: the invocation outcome of the
socket-enumeration utility is passed in explicitly (`Except` models a
rejected promise from failure or timeout); on success the stdout is
split on newlines and parsed.  Note the source has no try/catch here:
a rejection propagates to the caller. -/
def getListeningByProto (proto : Proto) (execResult : Except String String) :
    Except String (List LsofRecord) :=
  match execResult with
  | .error e => .error e
  | .ok stdout => .ok (parseLsofLines proto (jsSplitChar '\n' stdout))

/-- Index of the last occurrence of character `c` (JS
`String.prototype.lastIndexOf`, with `none` for -1). -/
def lastIdx (c : Char) : List Char → Option ℕ
  | [] => none
  | x :: xs =>
    match lastIdx c xs with
    | some i => some (i + 1)
    | none => if x = c then some 0 else none

/-- `parseAddressPort` (lines 116–126 of the source): drop everything
from the first space, split at the last colon, reject when the colon is
missing or at position 0 or when `Number(port)` is NaN. -/
def parseAddressPort (nameLine : String) : Option (String × JsNum) :=
  match lastIdx ':' ((jsSplitChar ' ' nameLine).headD "").data with
  | none => none
  | some i =>
    if i = 0 then none
    else
      match jsToNumber
        (String.mk (((jsSplitChar ' ' nameLine).headD "").data.drop (i + 1))) with
      | .nan => none
      | port =>
        some (String.mk (((jsSplitChar ' ' nameLine).headD "").data.take i), port)

example : parseAddressPort "127.0.0.1:3000 (LISTEN)" =
    some ("127.0.0.1", .num 3000) := by decide
example : parseAddressPort "*:8080" = some ("*", .num 8080) := by decide
example : parseAddressPort "::1:53" = some ("::1", .num 53) := by decide
example : parseAddressPort ":80" = none := by decide
example : parseAddressPort "noport" = none := by decide
example : parseAddressPort "*:" = some ("*", .num 0) := by decide

/-- JS `a || b` for a possibly-absent string `a` (absent and `""` are
falsy). -/
def jsOrStr (a : Option String) (b : String) : String :=
  match a with
  | some s => if s = "" then b else s
  | none => b

/-- `basename` (lines 190–194 of the source): split on `/`, drop empty
parts, take the last; `none` when nothing remains.  The source's
falsy-input guard is applied by `basenameOpt`. -/
def basename (p : String) : Option String :=
  (((splitOnChar '/' p.data).map String.mk).filter (· ≠ "")).getLast?

/-- `basename` applied to a possibly-absent argument (`if (!p) return
undefined`). -/
def basenameOpt (p : Option String) : Option String :=
  match p with
  | some s => if s = "" then none else basename s
  | none => none

/-- A fully-built listener entry (`Listener` in the source).
Numeric fields carry JS numbers; enrichment fields are optional. -/
structure Listener where
  pid : JsNum
  cmd : String
  user : Option String := none
  uid : Option JsNum := none
  address : String
  port : JsNum
  protocol : Proto
  execPath : Option String := none
  cwd : Option String := none
  cmdline : Option String := none
  cpu : Option ℚ := none
  memory : Option ℚ := none
  startedAt : Option String := none
  displayName : Option String := none
deriving DecidableEq, Repr

/-- The base-listener construction loop of `refresh` (lines 339–357):
skip tokens containing the connected-peer marker, decode the rest, and
keep only records whose pid and command are truthy. -/
def buildBase (records : List LsofRecord) : List Listener :=
  records.flatMap fun r =>
    r.names.filterMap fun n =>
      if hasArrow n.data then none
      else
        match parseAddressPort n with
        | none => none
        | some (addr, port) =>
          match r.pid, r.cmd with
          | some pv, some c =>
            if jsTruthyNum pv && c ≠ "" then
              some { pid := pv, cmd := c, user := r.user, uid := r.uid,
                     address := addr, port := port, protocol := r.proto,
                     displayName := some (jsOrStr (basename c) c) }
            else none
          | _, _ => none

/-- Pid-line parsing inside `killOwnersByPort` (lines 208–213): split
stdout on newlines, trim, drop empty lines, convert with `Number`,
drop NaN. -/
def parsePidLines (stdout : String) : List JsNum :=
  ((((jsSplitChar '\n' stdout).map jsTrim).filter (· ≠ "")).map jsToNumber).filter
    (· ≠ JsNum.nan)

/-- The sequential signal loop of `killOwnersByPort` (lines 214–216).
`killOk pid` tells whether the signal invocation for `pid` succeeds.
Returns the list of pids for which a signal call was actually issued,
and whether the loop ran to completion: the first failing `await
execa(KILL_PATH, ...)` throws, so no later pid is attempted. -/
def killLoop (killOk : JsNum → Bool) : List JsNum → List JsNum × Bool
  | [] => ([], true)
  | p :: ps =>
    if killOk p then
      let r := killLoop killOk ps
      (p :: r.1, r.2)
    else ([p], false)

/-- `killOwnersByPort` (lines 203–218): the outcome of the owning-pid
query is passed as `lsofResult`; `none` models the returned promise
rejecting (either the query failed or some signal call failed).  On
full success the source returns `pids.length`. -/
def killOwnersByPort (lsofResult : Except String String)
    (killOk : JsNum → Bool) : Option ℕ :=
  match lsofResult with
  | .error _ => none
  | .ok stdout =>
    let pids := parsePidLines stdout
    if (killLoop killOk pids).2 then some pids.length else none

/-- A parsed container port mapping (`DockerPort` in the source). -/
structure DockerPort where
  hostIp : Option String := none
  hostPort : Option JsNum := none
  containerPort : JsNum
  protocol : String
deriving DecidableEq, Repr

/-- JS `toLowerCase` (ASCII behaviour suffices for protocol names). -/
def jsToLower (s : String) : String :=
  String.mk (s.data.map Char.toLower)

/-- One comma-separated entry of the container ports field
(lines 246–264 of the source). -/
def parseDockerEntry (entry : String) : DockerPort :=
  if hasArrow entry.data then
    let parts := (splitArrow entry.data).map String.mk
    let host := parts.headD ""
    let cont := (parts[1]?).getD ""
    let hostPair :=
      match lastIdx ':' host.data with
      | some i =>
        let ip0 := String.mk (host.data.take i)
        let ip := if ip0 = "*" then "0.0.0.0" else ip0
        let hp := jsToNumber (String.mk (host.data.drop (i + 1)))
        (some ip, if hp = JsNum.nan then none else some hp)
      | none => ((none : Option String), (none : Option JsNum))
    let parts2 := jsSplitChar '/' cont
    let cpStr := parts2.headD ""
    let proto := (parts2[1]?).getD "tcp"
    { hostIp := hostPair.1, hostPort := hostPair.2,
      containerPort := jsToNumber cpStr, protocol := jsToLower proto }
  else
    let parts2 := jsSplitChar '/' entry
    let cpStr := parts2.headD ""
    let proto := (parts2[1]?).getD "tcp"
    { containerPort := jsToNumber cpStr, protocol := jsToLower proto }

/-- `parseDockerPorts` (lines 240–266): split on commas, trim, drop
blanks, parse each entry, and drop entries whose container port is
NaN. -/
def parseDockerPorts (portsField : String) : List DockerPort :=
  if portsField = "" then []
  else
    ((((jsSplitChar ',' portsField).map jsTrim).filter (· ≠ "")).map
      parseDockerEntry).filter (fun p => p.containerPort ≠ JsNum.nan)

example :
    parseDockerPorts "0.0.0.0:8080->80/tcp, 443/tcp" =
      [{ hostIp := some "0.0.0.0", hostPort := some (.num 8080),
         containerPort := .num 80, protocol := "tcp" },
       { containerPort := .num 443, protocol := "tcp" }] := by decide

example :
    parseDockerPorts "*:8080->80" =
      [{ hostIp := some "0.0.0.0", hostPort := some (.num 8080),
         containerPort := .num 80, protocol := "tcp" }] := by decide

/-- Per-pid resource sample (`pidusage` result; `{}` on failure). -/
structure PidStats where
  cpu : Option ℚ := none
  memory : Option ℚ := none
deriving DecidableEq, Repr, Inhabited

/-- Per-pid metadata (`getCwd` + `getPsInfo` results; fields absent on
failure). -/
structure PidExtra where
  execPath : Option String := none
  cmdline : Option String := none
  cwd : Option String := none
  startedAt : Option String := none
  fullCommand : Option String := none
deriving DecidableEq, Repr, Inhabited

/-- The static abbreviated-name table of `refresh`
(lines 380–391). -/
def nameMap : List (String × String) :=
  [("Spotify", "Spotify"), ("Sp", "Spotify"), ("Co", "Code"),
   ("Vi", "Visual Studio Code"), ("Go", "Google Chrome"),
   ("Ra", "Raycast"), ("On", "OneDrive"), ("sha", "sharingd"),
   ("Mi", "Microsoft Teams"), ("Library", "Library Agent")]

/-- Display-name resolution inside the merge step (lines 375–393):
`e.fullCommand || basename(e.execPath) || b.cmd`, then the static
table when the name is truthy, at most 15 characters and contains no
slash. -/
def resolveDisplayName (e : PidExtra) (bcmd : String) : String :=
  let dn := jsOrStr e.fullCommand (jsOrStr (basenameOpt e.execPath) bcmd)
  if dn ≠ "" && dn.data.length ≤ 15 && !jsIncludesChar '/' dn then
    (nameMap.lookup dn).getD dn
  else dn

/-- The merge step of `refresh` (lines 371–405): attach per-pid stats
and metadata (absent lookups behave as the empty object) and recompute
the display name.  Identity-key fields are untouched. -/
def enrich (stats : JsNum → Option PidStats) (extra : JsNum → Option PidExtra)
    (b : Listener) : Listener :=
  let s := (stats b.pid).getD {}
  let e := (extra b.pid).getD {}
  { b with cpu := s.cpu, memory := s.memory, execPath := e.execPath,
           cmdline := e.cmdline, cwd := e.cwd, startedAt := e.startedAt,
           displayName := some (resolveDisplayName e b.cmd) }

/-- JS subtraction on numbers (for the sort comparator
`a.port - b.port`). -/
def jsSub : JsNum → JsNum → JsNum
  | .nan, _ => .nan
  | _, .nan => .nan
  | .inf n1, .inf n2 => if n1 = n2 then .nan else .inf n1
  | .inf n, .num _ => .inf n
  | .num _, .inf n => .inf (!n)
  | .num a, .num b => .num (a - b)

/-- Is a JS number strictly positive?  (`NaN` is not; a NaN comparator
result is treated by `Array.prototype.sort` like 0.) -/
def jsPos : JsNum → Bool
  | .nan => false
  | .inf neg => !neg
  | .num q => if 0 < q then true else false

/-- JS `<` on numbers (any comparison with NaN is false). -/
def jsLtNum : JsNum → JsNum → Bool
  | .nan, _ => false
  | _, .nan => false
  | .inf n1, .inf n2 => n1 && !n2
  | .inf n, .num _ => n
  | .num _, .inf n => !n
  | .num a, .num b => if a < b then true else false

/-- `a` may stay before `b` under the comparator
`(a, b) => a.port - b.port` (the comparator result is not strictly
positive). -/
def jsLePort (a b : Listener) : Bool :=
  !(jsPos (jsSub a.port b.port))

/-- Stable insertion of one element into an already-sorted list. -/
def sortInsert (x : Listener) : List Listener → List Listener
  | [] => [x]
  | y :: ys => if jsLePort x y then x :: y :: ys else y :: sortInsert x ys

/-- `merged.sort((a, b) => a.port - b.port)` (line 407): modelled as a
stable sort consistent with the comparator, which is what ES2019+
guarantees for consistent comparators. -/
def jsSortByPort (l : List Listener) : List Listener :=
  l.foldr sortInsert []

/-- The host part of one `refresh` cycle after base construction:
enrich every base entry by pid, then sort ascending by port. -/
def aggregate (stats : JsNum → Option PidStats)
    (extra : JsNum → Option PidExtra) (base : List Listener) : List Listener :=
  jsSortByPort (base.map (enrich stats extra))

/-- Decimal digit characters. -/
def digitChar : ℕ → Char
  | 0 => '0' | 1 => '1' | 2 => '2' | 3 => '3' | 4 => '4'
  | 5 => '5' | 6 => '6' | 7 => '7' | 8 => '8' | _ => '9'

/-- Big-endian decimal digits of `n`, with `fuel ≥ n` for structural
recursion; empty for `n = 0`. -/
def natDigitsAux : ℕ → ℕ → List Char
  | 0, _ => []
  | fuel + 1, n =>
    if n = 0 then []
    else natDigitsAux fuel (n / 10) ++ [digitChar (n % 10)]

/-- Decimal rendering of a natural number (JS rendering of an integral
number). -/
def natDigitsChars (n : ℕ) : List Char :=
  if n = 0 then ['0'] else natDigitsAux n n

/-- Decimal digits of the fractional part `r / den` (with `r < den`),
up to `fuel` digits, stopping at an exact expansion. -/
def fracChars : ℕ → ℕ → ℕ → List Char
  | 0, _, _ => []
  | fuel + 1, r, den =>
    if r = 0 then []
    else digitChar (r * 10 / den) :: fracChars fuel (r * 10 % den) den

/-- Rendering of a non-negative rational (integer part, then a point
and the fractional expansion when non-integral; the JS float
shortest-round-trip rendering coincides with the exact expansion on
every value this program's inputs can produce). -/
def ratAbsChars (q : ℚ) : List Char :=
  if q.den = 1 then natDigitsChars q.num.toNat
  else
    natDigitsChars (q.num.toNat / q.den) ++
      '.' :: fracChars 20 (q.num.toNat % q.den) q.den

/-- JS number-to-string rendering (as used by the template literal in
the dedup key). -/
def jsNumToChars : JsNum → List Char
  | .nan => "NaN".data
  | .inf neg => if neg then "-Infinity".data else "Infinity".data
  | .num q => if q < 0 then '-' :: ratAbsChars (-q) else ratAbsChars q

/-- Rendering of the protocol field. -/
def protoChars : Proto → List Char
  | .tcp => "tcp".data
  | .udp => "udp".data

/-- The dedup key of `hostItems` (line 456):
`` `${l.pid}-${l.address}-${l.port}-${l.protocol}` ``. -/
def keyChars (l : Listener) : List Char :=
  jsNumToChars l.pid ++ '-' :: l.address.data ++
    '-' :: jsNumToChars l.port ++ '-' :: protoChars l.protocol

/-- The dedup key as a string. -/
def keyString (l : Listener) : String :=
  String.mk (keyChars l)

/-- `isSystem` (lines 442–452). -/
def isSystem (currentUser : String) (l : Listener) : Bool :=
  if (match l.uid with
      | some u => jsLtNum u (.num 500)
      | none => false) then true
  else if (match l.user with
           | some u => u ≠ "" && currentUser ≠ "" && u ≠ currentUser
           | none => false) then true
  else
    let p := jsOrStr l.execPath l.cmd
    ("/System/".data.isPrefixOf p.data) ||
    ("/usr/sbin/".data.isPrefixOf p.data) ||
    ("/usr/libexec/".data.isPrefixOf p.data) ||
    ("/Library/CoreServices/".data.isPrefixOf p.data)

/-- JS `Map.prototype.set`: overwrite in place when the key exists,
append otherwise (iteration order is first-insertion order). -/
def mapSet (m : List (String × Listener)) (k : String) (v : Listener) :
    List (String × Listener) :=
  if m.any (fun p => p.1 = k) then
    m.map (fun p => if p.1 = k then (k, v) else p)
  else m ++ [(k, v)]

/-- `hostItems` (lines 439–459): optionally filter system processes,
then deduplicate by the composite key through a JS `Map`, returning
the values in insertion order. -/
def hostItems (currentUser : String) (hideSystem : Bool)
    (listeners : List Listener) : List Listener :=
  ((listeners.filter
      (fun l => !(hideSystem && isSystem currentUser l))).foldl
    (fun m l => mapSet m (keyString l) l) []).map (·.2)

example :
    (hostItems "u" false
      [{ pid := .num 7, cmd := "node", address := "*", port := .num 80,
         protocol := .tcp },
       { pid := .num 7, cmd := "node", address := "*", port := .num 80,
         protocol := .tcp }]).length = 1 := by decide

/-- The host-listener phase of `refresh` (lines 336–337): both protocol
enumerations are awaited through `Promise.all` inside the `try` block,
so a rejection of either propagates out of the cycle. -/
def refreshHost (tcpRes udpRes : Except String String) :
    Except String (List LsofRecord) :=
  match getListeningByProto .tcp tcpRes with
  | .error e => .error e
  | .ok tcp =>
    match getListeningByProto .udp udpRes with
    | .error e => .error e
    | .ok udp => .ok (tcp ++ udp)

/-- Does a line carry the process-id tag (first character `p`)? -/
def isPLine (l : String) : Bool :=
  match l.data with
  | c :: _ => c = 'p'
  | [] => false

/-- Is the pid stored by the tagged-line parser truthy? -/
def pidTruthy (r : LsofRecord) : Bool :=
  match r.pid with
  | some v => jsTruthyNum v
  | none => false

/-- Modelled from the spec's words: a "valid non-negative integer"
port segment, i.e. a non-empty string of decimal digits.  Used only to
compare the spec's rejection condition with the source's actual
`Number.isNaN` rejection condition. -/
def isValidNonNegIntStr (s : String) : Bool :=
  s ≠ "" && s.data.all Char.isDigit

/-- The finite port value of a listener (0 for NaN/infinite ports,
which the hypotheses of the theorems below exclude). -/
def portVal (l : Listener) : ℚ :=
  match l.port with
  | .num q => q
  | _ => 0

/-- The identity key of §3 of the spec. -/
def idKey (l : Listener) : JsNum × String × JsNum × Proto :=
  (l.pid, l.address, l.port, l.protocol)

/-- Characterisation of the sequential signal loop: the attempted pids
are the successful prefix plus the first failing pid (if any), and the
loop completes iff every signal succeeds. -/
theorem killLoop_spec (killOk : JsNum → Bool) (pids : List JsNum) :
    (killLoop killOk pids).1 =
      pids.takeWhile killOk ++ (pids.dropWhile killOk).take 1 ∧
    (killLoop killOk pids).2 = pids.all killOk := by
  induction pids with
  | nil => simp [killLoop]
  | cons p ps ih =>
    by_cases h : killOk p = true
    · simp [killLoop, h, List.takeWhile_cons, List.dropWhile_cons, ih.1, ih.2]
    · simp at h
      simp [killLoop, h, List.takeWhile_cons, List.dropWhile_cons]

/-- When every signal succeeds, the loop attempts exactly the given
pids, in order, and completes. -/
theorem killLoop_all (killOk : JsNum → Bool) (l : List JsNum)
    (h : ∀ p ∈ l, killOk p = true) : killLoop killOk l = (l, true) := by
  induction l with
  | nil => rfl
  | cons p ps ih =>
    have hp := h p (List.mem_cons_self p ps)
    have hrest := ih fun q hq => h q (List.mem_cons_of_mem p hq)
    simp [killLoop, hp, hrest]

/-- C1, counterexample: when the socket-enumeration invocation fails
(here with message "lsof timed out"), `getListeningByProto` does not
return an empty record sequence — it propagates the error — and the
enclosing refresh cycle's host phase fails instead of producing a
result from the remaining sub-results. -/
theorem C1_counterexample :
    getListeningByProto .tcp (.error "lsof timed out") = .error "lsof timed out" ∧
    getListeningByProto .tcp (.error "lsof timed out") ≠ .ok [] ∧
    refreshHost (.error "lsof timed out") (.ok "") = .error "lsof timed out" := by
  refine ⟨rfl, ?_, rfl⟩
  intro h
  exact Except.noConfusion h

/-- C1, amended: a failed or timed-out socket-enumeration invocation
for either protocol propagates its error out of the parser, and a
failure of either sub-fetch makes the whole host phase of the poll
cycle fail (the cycle does not produce a result from the remaining
sub-results). -/
theorem C1_amended (e : String) (other : Except String String) :
    getListeningByProto .tcp (.error e) = .error e ∧
    getListeningByProto .udp (.error e) = .error e ∧
    refreshHost (.error e) other = .error e ∧
    ∃ e2 : String, refreshHost other (.error e) = .error e2 := by
  refine ⟨rfl, rfl, rfl, ?_⟩
  cases other with
  | error e2 => exact ⟨e2, rfl⟩
  | ok s => exact ⟨e, rfl⟩

/-- C2, counterexample: with resolved pids 1 and 2 and the signal for
pid 1 failing, the loop never attempts pid 2 (the attempt list is just
pid 1) and the call rejects instead of returning a confirmed-send
count. -/
theorem C2_counterexample :
    parsePidLines "1\n2" = [.num 1, .num 2] ∧
    (killLoop (fun p => if p = .num 1 then false else true)
      (parsePidLines "1\n2")).1 = [.num 1] ∧
    killOwnersByPort (.ok "1\n2")
      (fun p => if p = .num 1 then false else true) = none := by
  decide

/-- C2, amended: the signal attempts are sequential and the first
failure aborts all remaining attempts and makes the call reject with
no count; only when every signal succeeds does the call return a
count, which is then the number of resolved pid lines. -/
theorem C2_amended (killOk : JsNum → Bool) (pids : List JsNum) (stdout : String) :
    (killLoop killOk pids).1 =
      pids.takeWhile killOk ++ (pids.dropWhile killOk).take 1 ∧
    (killLoop killOk pids).2 = pids.all killOk ∧
    killOwnersByPort (.ok stdout) killOk =
      (if (parsePidLines stdout).all killOk then
        some (parsePidLines stdout).length
       else none) := by
  refine ⟨(killLoop_spec killOk pids).1, (killLoop_spec killOk pids).2, ?_⟩
  simp only [killOwnersByPort, (killLoop_spec killOk (parsePidLines stdout)).2]

/-- C3, counterexample: a pid listed twice by the introspection query
is signalled twice — the kill loop performs no deduplication — and the
returned count is 2, not 1. -/
theorem C3_counterexample :
    parsePidLines "5\n5" = [.num 5, .num 5] ∧
    (killLoop (fun _ => true) (parsePidLines "5\n5")).1 =
      [.num 5, .num 5] ∧
    killOwnersByPort (.ok "5\n5") (fun _ => true) = some 2 := by
  decide

/-- C3, amended: the resolved pid list is not deduplicated: when all
signals succeed, every resolved pid line — duplicates included — gets
its own signal call, and the returned count is the number of resolved
lines. -/
theorem C3_amended (stdout : String) (killOk : JsNum → Bool)
    (h : ∀ p ∈ parsePidLines stdout, killOk p = true) :
    (killLoop killOk (parsePidLines stdout)).1 = parsePidLines stdout ∧
    killOwnersByPort (.ok stdout) killOk =
      some (parsePidLines stdout).length := by
  have hk := killLoop_all killOk _ h
  refine ⟨by rw [hk], ?_⟩
  simp [killOwnersByPort, hk]

/-- Witness for C3's amended theorem at the duplicate-pid input. -/
theorem C3_witness :
    (killLoop (fun _ => true) (parsePidLines "5\n5")).1 =
      parsePidLines "5\n5" ∧
    killOwnersByPort (.ok "5\n5") (fun _ => true) =
      some (parsePidLines "5\n5").length :=
  C3_amended "5\n5" (fun _ => true) (by decide)

/-- C5: the three decoder examples hold, the connected-peer token
contains the arrow marker, and such a token is skipped before decoding
(it would otherwise decode!) and contributes no Listener: a record
carrying only it yields nothing, and a record carrying it alongside a
normal token yields only the normal token's Listener. -/
theorem C5_examples :
    parseAddressPort "127.0.0.1:3000 (LISTEN)" =
      some ("127.0.0.1", .num 3000) ∧
    parseAddressPort "*:8080" = some ("*", .num 8080) ∧
    parseAddressPort "::1:53" = some ("::1", .num 53) ∧
    hasArrow "127.0.0.1:12345->8.8.8.8:53".data = true ∧
    parseAddressPort "127.0.0.1:12345->8.8.8.8:53" =
      some ("127.0.0.1:12345->8.8.8.8", .num 53) ∧
    buildBase [{ pid := some (.num 42), cmd := some "node",
                 names := ["127.0.0.1:12345->8.8.8.8:53"],
                 proto := .tcp }] = [] ∧
    buildBase [{ pid := some (.num 42), cmd := some "node",
                 names := ["127.0.0.1:12345->8.8.8.8:53",
                           "127.0.0.1:3000 (LISTEN)"],
                 proto := .tcp }] =
      [{ pid := .num 42, cmd := "node", address := "127.0.0.1",
         port := .num 3000, protocol := .tcp,
         displayName := some "node" }] := by
  decide

/-- C9, counterexample: the entry `3.5/tcp` has a container-port
segment that is not an integer, yet it is not dropped — JS `Number`
accepts it and the mapping is kept with fractional container port
7/2. -/
theorem C9_counterexample :
    parseDockerPorts "3.5/tcp" =
      [{ containerPort := .num (mkRat 7 2), protocol := "tcp" }] ∧
    (mkRat 7 2).den ≠ 1 := by
  decide

/-- C9, amended: the worked example parses to exactly the two stated
mappings, the host address `*` normalises to `0.0.0.0`, the protocol
defaults to `tcp` when absent, and an entry is dropped iff the JS
numeric conversion of its container-port segment is NaN (segments
converting to non-integers are kept). -/
theorem C9_amended :
    parseDockerPorts "0.0.0.0:8080->80/tcp, 443/tcp" =
      [{ hostIp := some "0.0.0.0", hostPort := some (.num 8080),
         containerPort := .num 80, protocol := "tcp" },
       { containerPort := .num 443, protocol := "tcp" }] ∧
    parseDockerPorts "*:8080->80" =
      [{ hostIp := some "0.0.0.0", hostPort := some (.num 8080),
         containerPort := .num 80, protocol := "tcp" }] ∧
    ∀ s : String, ∀ p ∈ parseDockerPorts s, p.containerPort ≠ JsNum.nan := by
  refine ⟨by decide, by decide, ?_⟩
  intro s p hp
  by_cases hs : s = ""
  · simp [parseDockerPorts, hs] at hp
  · simp only [parseDockerPorts, if_neg hs] at hp
    have h2 := (List.mem_filter.mp hp).2
    simpa using h2

/-- Witness for C9's amended theorem: the first mapping of the worked
example indeed has a non-NaN container port. -/
theorem C9_witness :
    ({ hostIp := some "0.0.0.0", hostPort := some (.num 8080),
       containerPort := .num 80, protocol := "tcp" } :
      DockerPort).containerPort ≠ JsNum.nan :=
  C9_amended.2.2 "0.0.0.0:8080->80/tcp, 443/tcp"
    { hostIp := some "0.0.0.0", hostPort := some (.num 8080),
      containerPort := .num 80, protocol := "tcp" } (by decide)

/-- A line that does not carry the process-id tag leaves an empty
parser state unchanged. -/
theorem lsofStep_nonP_none (proto : Proto) (acc : List LsofRecord)
    (l : String) (hl : isPLine l = false) :
    lsofStep proto (none, acc) l = (none, acc) := by
  unfold lsofStep
  cases hd : l.data with
  | nil => rfl
  | cons t ts =>
    have ht : ¬(t = 'p') := by
      simpa [isPLine, hd] using hl
    simp [ht]

/-- Folding the parser over lines with no process-id tag from an empty
state does nothing. -/
theorem lsofFoldl_nonP (proto : Proto) (pre : List String)
    (h : ∀ l ∈ pre, isPLine l = false) (acc : List LsofRecord) :
    pre.foldl (lsofStep proto) (none, acc) = (none, acc) := by
  induction pre with
  | nil => rfl
  | cons l ls ih =>
    rw [List.foldl_cons,
      lsofStep_nonP_none proto acc l (h l (List.mem_cons_self l ls))]
    exact ih fun x hx => h x (List.mem_cons_of_mem l hx)

/-- C10: every tagged field line occurring before the first process-id
tag line is ignored entirely — parsing is the same as if those lines
were absent, so their field values appear in no emitted record. -/
theorem C10_leading_fields_ignored (proto : Proto) (pre rest : List String)
    (h : ∀ l ∈ pre, isPLine l = false) :
    parseLsofLines proto (pre ++ rest) = parseLsofLines proto rest := by
  unfold parseLsofLines
  rw [List.foldl_append, lsofFoldl_nonP proto pre h []]

/-- Witness for C10 at a concrete input: a command line, a blank line
and a name line before the first `p` line change nothing. -/
theorem C10_witness :
    parseLsofLines .tcp
      (["chello", "", "n*:80 (LISTEN)"] ++ ["p3", "cnode"]) =
    parseLsofLines .tcp ["p3", "cnode"] :=
  C10_leading_fields_ignored .tcp ["chello", "", "n*:80 (LISTEN)"]
    ["p3", "cnode"] (by decide)

/-- A truthy pid makes the whole flush guard truthy. -/
theorem pidTruthy_recTruthy (r : LsofRecord) (h : pidTruthy r = true) :
    recTruthy r = true := by
  unfold recTruthy
  unfold pidTruthy at h
  rw [h]
  rfl

/-- A line carries the process-id tag iff its first character is
`p`. -/
theorem isPLine_iff (l : String) :
    isPLine l = true ↔ ∃ ts, l.data = 'p' :: ts := by
  unfold isPLine
  cases hd : l.data with
  | nil => simp
  | cons t ts =>
    simp only [decide_eq_true_eq, List.cons.injEq]
    constructor
    · intro h
      exact ⟨ts, h, rfl⟩
    · intro ⟨ts2, h1, h2⟩
      exact h1

/-- A non-process-id line applied to a state with a current accumulator
keeps the record list and only updates non-pid fields of the
accumulator. -/
theorem lsofStep_nonP_some (proto : Proto) (r : LsofRecord)
    (acc : List LsofRecord) (l : String) (hl : isPLine l = false) :
    ∃ r' : LsofRecord, lsofStep proto (some r, acc) l = (some r', acc) ∧
      r'.pid = r.pid := by
  unfold lsofStep
  cases hd : l.data with
  | nil => exact ⟨r, rfl, rfl⟩
  | cons t ts =>
    have ht : ¬(t = 'p') := by
      simpa [isPLine, hd] using hl
    simp only [ht, if_false]
    refine ⟨_, rfl, ?_⟩
    split_ifs <;> rfl

/-- A process-id line flushes a truthy accumulator and starts a fresh
one whose pid is the JS number of the line's value (unless NaN). -/
theorem lsofStep_P (proto : Proto) (st : Option LsofRecord × List LsofRecord)
    (l : String) (ts : List Char) (hd : l.data = 'p' :: ts) :
    lsofStep proto st l =
      (some { names := [], proto := proto,
              pid := if jsToNumber (String.mk ts) = .nan then none
                     else some (jsToNumber (String.mk ts)) },
       match st.1 with
       | some r => if recTruthy r then st.2 ++ [r] else st.2
       | none => st.2) := by
  unfold lsofStep
  rw [hd]
  rfl

/-- Counting invariant of the tagged-line fold: starting from a state
whose accumulator (if any) has a truthy pid, and with every process-id
line carrying a truthy pid value, the finalized output length is the
accumulated length, plus one for a pending accumulator, plus one per
process-id line. -/
theorem parse_count_aux (proto : Proto) :
    ∀ (lines : List String) (cur : Option LsofRecord) (acc : List LsofRecord),
    (∀ l ∈ lines, isPLine l = true →
      jsTruthyNum (jsToNumber (String.mk l.data.tail)) = true) →
    (∀ r, cur = some r → pidTruthy r = true) →
    (lsofFinalize (lines.foldl (lsofStep proto) (cur, acc))).length =
      acc.length + (if cur.isSome then 1 else 0) + lines.countP isPLine := by
  intro lines
  induction lines with
  | nil =>
    intro cur acc _ hcur
    cases cur with
    | none => simp [lsofFinalize]
    | some r =>
      have hrt := pidTruthy_recTruthy r (hcur r rfl)
      simp [lsofFinalize, hrt]
  | cons l ls ih =>
    intro cur acc hl hcur
    have hls : ∀ x ∈ ls, isPLine x = true →
        jsTruthyNum (jsToNumber (String.mk x.data.tail)) = true :=
      fun x hx => hl x (List.mem_cons_of_mem l hx)
    rw [List.foldl_cons]
    by_cases hp : isPLine l = true
    · obtain ⟨ts, hd⟩ := (isPLine_iff l).mp hp
      have htruthy := hl l (List.mem_cons_self l ls) hp
      rw [hd] at htruthy
      simp only [List.tail_cons] at htruthy
      have hnotnan : ¬(jsToNumber (String.mk ts) = .nan) := by
        intro heq
        rw [heq] at htruthy
        exact Bool.noConfusion htruthy
      rw [lsofStep_P proto (cur, acc) l ts hd]
      have hfresh : ∀ r : LsofRecord,
          some { names := [], proto := proto,
                 pid := if jsToNumber (String.mk ts) = .nan then none
                        else some (jsToNumber (String.mk ts)) } = some r →
          pidTruthy r = true := by
        intro r hr
        cases hr
        unfold pidTruthy
        rw [if_neg hnotnan]
        exact htruthy
      cases cur with
      | none =>
        rw [ih _ acc hls hfresh]
        simp [List.countP_cons, hp]
        omega
      | some r =>
        have hrt := pidTruthy_recTruthy r (hcur r rfl)
        simp only [hrt, if_true]
        rw [ih _ (acc ++ [r]) hls hfresh]
        simp [List.countP_cons, hp, List.length_append]
        omega
    · have hpf : isPLine l = false := by
        revert hp
        cases isPLine l <;> simp
      cases cur with
      | none =>
        rw [lsofStep_nonP_none proto acc l hpf]
        rw [ih none acc hls (fun r hr => nomatch hr)]
        simp [List.countP_cons, hpf]
      | some r =>
        obtain ⟨r', hstep, hpid⟩ := lsofStep_nonP_some proto r acc l hpf
        rw [hstep]
        have hr' : pidTruthy r' = true := by
          have hc := hcur r rfl
          unfold pidTruthy at hc ⊢
          rw [hpid]
          exact hc
        rw [ih (some r') acc hls (fun x hx => by cases hx; exact hr')]
        simp [List.countP_cons, hpf]

/-- C8: for input whose process-id tag lines carry truthy (non-NaN,
non-zero) pid values — i.e. valid tagged-record input — the parser
emits exactly one record per process-id tag line.  In particular the
end-of-input flush contributes no duplicate of the previously emitted
record: a duplicate emission would make the output longer than the
process-id line count. -/
theorem C8_one_record_per_ptag (proto : Proto) (lines : List String)
    (h : ∀ l ∈ lines, isPLine l = true →
      jsTruthyNum (jsToNumber (String.mk l.data.tail)) = true) :
    (parseLsofLines proto lines).length = lines.countP isPLine := by
  have := parse_count_aux proto lines none [] h (fun r hr => nomatch hr)
  simpa [parseLsofLines] using this

/-- Witness for C8 on a two-process tagged-record input. -/
theorem C8_witness :
    (parseLsofLines .tcp
      ["p3", "cnode", "n*:80 (LISTEN)", "p4", "cpython"]).length =
    (["p3", "cnode", "n*:80 (LISTEN)", "p4", "cpython"]).countP isPLine :=
  C8_one_record_per_ptag .tcp
    ["p3", "cnode", "n*:80 (LISTEN)", "p4", "cpython"] (by decide)

/-- `lastIdx` finds nothing iff the character is absent. -/
theorem lastIdx_eq_none (c : Char) (cs : List Char) :
    lastIdx c cs = none ↔ c ∉ cs := by
  induction cs with
  | nil => simp [lastIdx]
  | cons x xs ih =>
    unfold lastIdx
    cases h : lastIdx c xs with
    | some i =>
      have hmem : c ∈ xs := by
        by_contra hmem
        rw [ih.mpr hmem] at h
        exact Option.noConfusion h
      simp [hmem]
    | none =>
      have hmem := ih.mp h
      by_cases hx : x = c
      · subst hx
        simp
      · simp [hx, hmem, Ne.symm hx]

/-- `lastIdx` characterisation: position `i` is a last occurrence iff
the list decomposes there with no later occurrence. -/
theorem lastIdx_eq_some (c : Char) :
    ∀ (cs : List Char) (i : ℕ),
    lastIdx c cs = some i ↔
      ∃ pre suf, cs = pre ++ c :: suf ∧ pre.length = i ∧ c ∉ suf := by
  intro cs
  induction cs with
  | nil =>
    intro i
    simp [lastIdx]
  | cons x xs ih =>
    intro i
    unfold lastIdx
    cases h : lastIdx c xs with
    | some j =>
      obtain ⟨pre, suf, hdec, hlen, hnot⟩ := (ih j).mp h
      simp only [Option.some.injEq]
      constructor
      · intro hij
        refine ⟨x :: pre, suf, ?_, ?_, hnot⟩
        · rw [hdec]
          rfl
        · simp only [List.length_cons, hlen]
          omega
      · intro ⟨pre2, suf2, hdec2, hlen2, hnot2⟩
        cases pre2 with
        | nil =>
          simp only [List.nil_append, List.cons.injEq] at hdec2
          have hcin : c ∈ xs := by rw [hdec]; simp
          rw [← hdec2.2] at hnot2
          exact absurd hcin hnot2
        | cons y pre3 =>
          simp only [List.cons_append, List.cons.injEq] at hdec2
          have hj2 := (ih pre3.length).mpr ⟨pre3, suf2, hdec2.2, rfl, hnot2⟩
          rw [h] at hj2
          injection hj2 with hj3
          simp only [List.length_cons] at hlen2
          omega
    | none =>
      have hmem := (lastIdx_eq_none c xs).mp h
      by_cases hx : x = c
      · rw [if_pos hx]
        simp only [Option.some.injEq]
        constructor
        · intro hi
          exact ⟨[], xs, by rw [hx]; rfl, hi, hmem⟩
        · intro ⟨pre2, suf2, hdec2, hlen2, hnot2⟩
          cases pre2 with
          | nil =>
            simpa using hlen2
          | cons y pre3 =>
            simp only [List.cons_append, List.cons.injEq] at hdec2
            have hcin : c ∈ xs := by rw [hdec2.2]; simp
            exact absurd hcin hmem
      · simp only [if_neg hx]
        constructor
        · intro hc
          exact Option.noConfusion hc
        · intro ⟨pre2, suf2, hdec2, hlen2, hnot2⟩
          cases pre2 with
          | nil =>
            simp only [List.nil_append, List.cons.injEq] at hdec2
            exact absurd hdec2.1 hx
          | cons y pre3 =>
            simp only [List.cons_append, List.cons.injEq] at hdec2
            have : c ∈ xs := by rw [hdec2.2]; simp
            exact absurd this hmem

/-- C4, counterexample: for the token `*:` the last colon is at
position 1 (greater than 0) and the segment after it is the empty
string, which is not a valid non-negative integer — so the claim
requires the decoder to return none — yet the decoder accepts it with
port 0 (JS `Number("")` is 0). -/
theorem C4_counterexample :
    parseAddressPort "*:" = some ("*", .num 0) ∧
    isValidNonNegIntStr "" = false ∧
    lastIdx ':' ((jsSplitChar ' ' "*:").headD "").data = some 1 := by
  decide

/-- Taking exactly the left part of an append. -/
theorem take_append_exact {α : Type} (l₁ l₂ : List α) :
    (l₁ ++ l₂).take l₁.length = l₁ := by
  induction l₁ with
  | nil => rfl
  | cons x xs ih => simp [ih]

/-- Dropping exactly the left part of an append. -/
theorem drop_append_exact {α : Type} (l₁ l₂ : List α) :
    (l₁ ++ l₂).drop l₁.length = l₂ := by
  induction l₁ with
  | nil => rfl
  | cons x xs ih => simp [ih]

/-- C4, amended: the decoder returns `some (addr, v)` iff the part of
the token before the first space splits at its last colon into a
non-empty address and a port segment whose JS `Number` conversion is
not NaN; the port is that JS number.  The rejection condition is
NaN-ness of the conversion, not failure to be a valid non-negative
integer: the empty segment converts to 0 and negative or fractional
segments are accepted. -/
theorem C4_amended (s addr : String) (v : JsNum) :
    parseAddressPort s = some (addr, v) ↔
      ∃ seg : String,
        ((jsSplitChar ' ' s).headD "").data = addr.data ++ ':' :: seg.data ∧
        ':' ∉ seg.data ∧ addr.data ≠ [] ∧ jsToNumber seg = v ∧
        v ≠ .nan := by
  unfold parseAddressPort
  generalize ((jsSplitChar ' ' s).headD "").data = raw
  split
  · rename_i h
    constructor
    · intro hc
      exact Option.noConfusion hc
    · rintro ⟨seg, hdec, hnot, -, -, -⟩
      have h2 := (lastIdx_eq_some ':' raw addr.data.length).mpr
        ⟨addr.data, seg.data, hdec, rfl, hnot⟩
      rw [h] at h2
      exact Option.noConfusion h2
  · rename_i i h
    obtain ⟨pre, suf, hdec, hlen, hnot⟩ := (lastIdx_eq_some ':' raw i).mp h
    by_cases hi : i = 0
    · rw [if_pos hi]
      constructor
      · intro hc
        exact Option.noConfusion hc
      · rintro ⟨seg, hdec2, hnot2, hne, -, -⟩
        have h2 := (lastIdx_eq_some ':' raw addr.data.length).mpr
          ⟨addr.data, seg.data, hdec2, rfl, hnot2⟩
        rw [h] at h2
        injection h2 with h3
        exact absurd (List.eq_nil_of_length_eq_zero (by omega)) hne
    · rw [if_neg hi]
      have htake : raw.take i = pre := by
        rw [hdec, ← hlen]
        exact take_append_exact pre (':' :: suf)
      have hdrop : raw.drop (i + 1) = suf := by
        rw [hdec, ← hlen]
        have hsplit : pre ++ ':' :: suf = (pre ++ [':']) ++ suf := by simp
        rw [hsplit, show pre.length + 1 = (pre ++ [':']).length from by simp]
        exact drop_append_exact (pre ++ [':']) suf
      rw [htake, hdrop]
      constructor
      · intro hc
        cases hjs : jsToNumber (String.mk suf) with
        | nan =>
          rw [hjs] at hc
          exact Option.noConfusion hc
        | inf neg =>
          rw [hjs] at hc
          simp only [Option.some.injEq, Prod.mk.injEq] at hc
          refine ⟨String.mk suf, ?_, hnot, ?_, ?_, ?_⟩
          · rw [← hc.1]
            exact hdec
          · rw [← hc.1]
            show pre ≠ []
            intro hp
            rw [hp] at hlen
            simp at hlen
            exact hi hlen.symm
          · rw [hjs]
            exact hc.2
          · rw [← hc.2]
            intro hh
            exact JsNum.noConfusion hh
        | num q =>
          rw [hjs] at hc
          simp only [Option.some.injEq, Prod.mk.injEq] at hc
          refine ⟨String.mk suf, ?_, hnot, ?_, ?_, ?_⟩
          · rw [← hc.1]
            exact hdec
          · rw [← hc.1]
            show pre ≠ []
            intro hp
            rw [hp] at hlen
            simp at hlen
            exact hi hlen.symm
          · rw [hjs]
            exact hc.2
          · rw [← hc.2]
            intro hh
            exact JsNum.noConfusion hh
      · rintro ⟨seg, hdec2, hnot2, hne, hjs, hv⟩
        have h2 := (lastIdx_eq_some ':' raw addr.data.length).mpr
          ⟨addr.data, seg.data, hdec2, rfl, hnot2⟩
        rw [h] at h2
        injection h2 with h3
        have hpre : pre = addr.data := by
          rw [← htake, hdec2, h3]
          exact take_append_exact addr.data (':' :: seg.data)
        have hsuf : suf = seg.data := by
          rw [← hdrop, hdec2]
          have hsplit : addr.data ++ ':' :: seg.data =
              (addr.data ++ [':']) ++ seg.data := by simp
          rw [hsplit, h3,
            show addr.data.length + 1 = (addr.data ++ [':']).length from by simp]
          exact drop_append_exact (addr.data ++ [':']) seg.data
        have hseg : String.mk seg.data = seg := by
          cases seg
          rfl
        have haddr : String.mk addr.data = addr := by
          cases addr
          rfl
        rw [hsuf, hseg, hjs, hpre, haddr]
        cases v with
        | nan => exact absurd rfl hv
        | inf neg => rfl
        | num q => rfl

/-- C7: a Listener is constructed from a raw socket record only if the
record has both a pid and a command name and at least one of its
address:port tokens decodes successfully without containing the
connected-peer marker; and a record lacking a pid, lacking a command,
or having no decodable non-connected token contributes no Listener. -/
theorem C7_record_invariant :
    (∀ (records : List LsofRecord) (l : Listener), l ∈ buildBase records →
      ∃ r ∈ records, r.pid.isSome ∧ r.cmd.isSome ∧
        ∃ n ∈ r.names, hasArrow n.data = false ∧
          (parseAddressPort n).isSome) ∧
    (∀ r : LsofRecord,
      (r.pid = none ∨ r.cmd = none ∨
       ∀ n ∈ r.names, hasArrow n.data = true ∨ parseAddressPort n = none) →
      buildBase [r] = []) := by
  constructor
  · intro records l hl
    rw [buildBase, List.mem_flatMap] at hl
    obtain ⟨r, hr, hl2⟩ := hl
    rw [List.mem_filterMap] at hl2
    obtain ⟨n, hn, hf⟩ := hl2
    refine ⟨r, hr, ?_⟩
    by_cases ha : hasArrow n.data = true
    · rw [if_pos ha] at hf
      exact Option.noConfusion hf
    · have ha2 : hasArrow n.data = false := by
        revert ha
        cases hasArrow n.data <;> simp
      rw [if_neg (by rw [ha2]; exact Bool.noConfusion)] at hf
      cases hp : parseAddressPort n with
      | none =>
        rw [hp] at hf
        exact Option.noConfusion hf
      | some ap =>
        rw [hp] at hf
        cases hpid : r.pid with
        | none =>
          rw [hpid] at hf
          exact Option.noConfusion hf
        | some pv =>
          cases hcmd : r.cmd with
          | none =>
            rw [hpid, hcmd] at hf
            exact Option.noConfusion hf
          | some c =>
            exact ⟨rfl, rfl, n, hn, ha2, by rw [hp]; rfl⟩
  · intro r hr
    rw [buildBase]
    simp only [List.flatMap_cons, List.flatMap_nil, List.append_nil]
    rw [List.filterMap_eq_nil_iff]
    intro n hn
    rcases hr with hpid | hcmd | htok
    · rw [hpid]
      split
      · rfl
      · cases parseAddressPort n with
        | none => rfl
        | some ap => rfl
    · rw [hcmd]
      split
      · rfl
      · cases parseAddressPort n with
        | none => rfl
        | some ap =>
          cases r.pid with
          | none => rfl
          | some pv => rfl
    · rcases htok n hn with ha | hp
      · rw [if_pos ha]
      · rw [hp]
        split
        · rfl
        · rfl

/-- Witness for C7 at concrete records: the emitted Listener of a good
record points back to a record with pid, command and a decodable
token; and a record with a pid but no decodable non-connected token
emits nothing. -/
theorem C7_witness :
    (∃ r ∈ ([{ pid := some (.num 42), cmd := some "node",
               names := ["*:8080"], proto := .tcp }] : List LsofRecord),
      r.pid.isSome ∧ r.cmd.isSome ∧
        ∃ n ∈ r.names, hasArrow n.data = false ∧
          (parseAddressPort n).isSome) ∧
    buildBase [{ pid := some (.num 42), cmd := some "node",
                 names := ["127.0.0.1:12345->8.8.8.8:53", "garbage"],
                 proto := .tcp }] = [] :=
  ⟨C7_record_invariant.1
      [{ pid := some (.num 42), cmd := some "node",
         names := ["*:8080"], proto := .tcp }]
      { pid := .num 42, cmd := "node", address := "*", port := .num 8080,
        protocol := .tcp, displayName := some "node" } (by decide),
   C7_record_invariant.2
      { pid := some (.num 42), cmd := some "node",
        names := ["127.0.0.1:12345->8.8.8.8:53", "garbage"],
        proto := .tcp } (by decide)⟩

/-- Appending one digit multiplies the value by ten. -/
theorem digitsToNat_append_digit (ds : List Char) (c : Char) :
    digitsToNat (ds ++ [c]) = digitsToNat ds * 10 + (c.toNat - 48) := by
  unfold digitsToNat
  rw [List.foldl_append]
  rfl

/-- The digit character of `d < 10` decodes back to `d`. -/
theorem digitChar_toNat (d : ℕ) (h : d < 10) :
    (digitChar d).toNat - 48 = d := by
  interval_cases d <;> decide

/-- Digit characters are never the dash. -/
theorem digitChar_ne_dash (d : ℕ) : digitChar d ≠ '-' := by
  unfold digitChar
  split <;> decide

/-- The fuelled digit rendering round-trips through its value. -/
theorem digitsToNat_natDigitsAux :
    ∀ (fuel n : ℕ), n ≤ fuel → digitsToNat (natDigitsAux fuel n) = n := by
  intro fuel
  induction fuel with
  | zero =>
    intro n hn
    have : n = 0 := Nat.le_zero.mp hn
    rw [this]
    rfl
  | succ f ih =>
    intro n hn
    unfold natDigitsAux
    by_cases h0 : n = 0
    · rw [if_pos h0, h0]
      rfl
    · rw [if_neg h0]
      have hdiv : n / 10 ≤ f := by
        have := Nat.div_lt_self (Nat.pos_of_ne_zero h0) (by norm_num : 1 < 10)
        omega
      rw [digitsToNat_append_digit, ih (n / 10) hdiv,
        digitChar_toNat (n % 10) (Nat.mod_lt n (by norm_num))]
      omega

/-- The decimal rendering round-trips through its value. -/
theorem digitsToNat_natDigitsChars (n : ℕ) :
    digitsToNat (natDigitsChars n) = n := by
  unfold natDigitsChars
  by_cases h0 : n = 0
  · rw [if_pos h0, h0]
    rfl
  · rw [if_neg h0]
    exact digitsToNat_natDigitsAux n n le_rfl

/-- Decimal rendering of naturals is injective. -/
theorem natDigitsChars_inj {m n : ℕ}
    (h : natDigitsChars m = natDigitsChars n) : m = n := by
  rw [← digitsToNat_natDigitsChars m, ← digitsToNat_natDigitsChars n, h]

/-- The fuelled digit rendering contains no dash. -/
theorem natDigitsAux_ne_dash :
    ∀ (fuel n : ℕ) (c : Char), c ∈ natDigitsAux fuel n → c ≠ '-' := by
  intro fuel
  induction fuel with
  | zero =>
    intro n c hc
    exact absurd hc (by simp [natDigitsAux])
  | succ f ih =>
    intro n c hc
    unfold natDigitsAux at hc
    by_cases h0 : n = 0
    · rw [if_pos h0] at hc
      exact absurd hc (by simp)
    · rw [if_neg h0, List.mem_append] at hc
      rcases hc with hc | hc
      · exact ih (n / 10) c hc
      · rw [List.mem_singleton] at hc
        rw [hc]
        exact digitChar_ne_dash (n % 10)

/-- The decimal rendering contains no dash. -/
theorem natDigitsChars_ne_dash (n : ℕ) (c : Char)
    (hc : c ∈ natDigitsChars n) : c ≠ '-' := by
  unfold natDigitsChars at hc
  by_cases h0 : n = 0
  · rw [if_pos h0, List.mem_singleton] at hc
    rw [hc]
    decide
  · rw [if_neg h0] at hc
    exact natDigitsAux_ne_dash n n c hc

/-- A natural-number JS value renders as its plain decimal digits. -/
theorem jsNumToChars_natCast (n : ℕ) :
    jsNumToChars (JsNum.num (n : ℚ)) = natDigitsChars n := by
  simp only [jsNumToChars]
  rw [if_neg (not_lt.mpr (by positivity))]
  unfold ratAbsChars
  rw [if_pos (Rat.den_natCast n)]
  rw [Rat.num_natCast, Int.toNat_natCast]

/-- Dropping a satisfied block stops exactly at the first failing
element. -/
theorem dropWhile_all_append {α : Type} (p : α → Bool) (xs : List α)
    (y : α) (ys : List α) (hxs : ∀ x ∈ xs, p x = true) (hy : p y = false) :
    (xs ++ y :: ys).dropWhile p = y :: ys := by
  induction xs with
  | nil => simp [List.dropWhile_cons, hy]
  | cons x xs2 ih =>
    rw [List.cons_append, List.dropWhile_cons,
      if_pos (hxs x (List.mem_cons_self x xs2))]
    exact ih fun z hz => hxs z (List.mem_cons_of_mem x hz)

/-- Taking a satisfied block stops exactly at the first failing
element. -/
theorem takeWhile_all_append {α : Type} (p : α → Bool) (xs : List α)
    (y : α) (ys : List α) (hxs : ∀ x ∈ xs, p x = true) (hy : p y = false) :
    (xs ++ y :: ys).takeWhile p = xs := by
  induction xs with
  | nil => simp [List.takeWhile_cons, hy]
  | cons x xs2 ih =>
    rw [List.cons_append, List.takeWhile_cons,
      if_pos (hxs x (List.mem_cons_self x xs2))]
    rw [ih fun z hz => hxs z (List.mem_cons_of_mem x hz)]

/-- The protocol rendering contains no dash. -/
theorem protoChars_ne_dash (p : Proto) (c : Char)
    (hc : c ∈ protoChars p) : c ≠ '-' := by
  cases p with
  | tcp =>
    rw [show protoChars Proto.tcp = ['t', 'c', 'p'] from rfl] at hc
    simp only [List.mem_cons, List.not_mem_nil, or_false] at hc
    rcases hc with rfl | rfl | rfl <;> decide
  | udp =>
    rw [show protoChars Proto.udp = ['u', 'd', 'p'] from rfl] at hc
    simp only [List.mem_cons, List.not_mem_nil, or_false] at hc
    rcases hc with rfl | rfl | rfl <;> decide

/-- Reshaping the reversed dedup key. -/
theorem keyChars_reverse (l : Listener) :
    (keyChars l).reverse =
      (protoChars l.protocol).reverse ++ '-' ::
        ((jsNumToChars l.port).reverse ++ '-' ::
          (l.address.data.reverse ++ '-' ::
            (jsNumToChars l.pid).reverse)) := by
  unfold keyChars
  simp [List.reverse_append, List.reverse_cons, List.append_assoc]

/-- Equal dedup keys force equal ports, whenever both ports are
natural numbers (so that their decimal renderings contain no dash and
the port segment can be read back off the key from the right). -/
theorem key_port_eq (l1 l2 : Listener) (n1 n2 : ℕ)
    (h1 : l1.port = JsNum.num (n1 : ℚ)) (h2 : l2.port = JsNum.num (n2 : ℚ))
    (hkey : keyString l1 = keyString l2) : n1 = n2 := by
  have hchars : keyChars l1 = keyChars l2 := by
    have := congrArg String.data hkey
    simpa [keyString] using this
  have hrev := congrArg List.reverse hchars
  rw [keyChars_reverse, keyChars_reverse, h1, h2,
    jsNumToChars_natCast, jsNumToChars_natCast] at hrev
  have hpd : ∀ p : Proto, ∀ c ∈ (protoChars p).reverse,
      (fun c => decide (c ≠ '-')) c = true := by
    intro p c hc
    simp only [decide_eq_true_eq]
    exact protoChars_ne_dash p c (List.mem_reverse.mp hc)
  have hdash : (fun c => decide (c ≠ '-')) '-' = false := by decide
  have hd1 := congrArg (List.dropWhile (fun c => decide (c ≠ '-'))) hrev
  rw [dropWhile_all_append _ _ _ _ (hpd l1.protocol) hdash,
    dropWhile_all_append _ _ _ _ (hpd l2.protocol) hdash] at hd1
  have ht1 := congrArg (fun t => List.takeWhile
    (fun c => decide (c ≠ '-')) (List.tail t)) hd1
  simp only [List.tail_cons] at ht1
  have hnd : ∀ n : ℕ, ∀ c ∈ (natDigitsChars n).reverse,
      (fun c => decide (c ≠ '-')) c = true := by
    intro n c hc
    simp only [decide_eq_true_eq]
    exact natDigitsChars_ne_dash n c (List.mem_reverse.mp hc)
  rw [takeWhile_all_append _ _ _ _ (hnd n1) hdash,
    takeWhile_all_append _ _ _ _ (hnd n2) hdash] at ht1
  exact natDigitsChars_inj (List.reverse_injective ht1)

/-- `portVal` on a finite port. -/
theorem portVal_num (a : Listener) (q : ℚ) (h : a.port = JsNum.num q) :
    portVal a = q := by
  unfold portVal
  rw [h]

/-- Membership in a stable insertion. -/
theorem mem_sortInsert (x y : Listener) (l : List Listener) :
    y ∈ sortInsert x l ↔ y = x ∨ y ∈ l := by
  induction l with
  | nil => simp [sortInsert]
  | cons z zs ih =>
    unfold sortInsert
    by_cases h : jsLePort x z = true
    · rw [if_pos h]
      simp only [List.mem_cons]
    · rw [if_neg h]
      simp only [List.mem_cons, ih]
      tauto

/-- The JS comparator order between two finite ports is the rational
order. -/
theorem jsLePort_num (a b : Listener) (qa qb : ℚ)
    (ha : a.port = JsNum.num qa) (hb : b.port = JsNum.num qb) :
    jsLePort a b = true ↔ qa ≤ qb := by
  unfold jsLePort
  rw [ha, hb]
  have hsub : jsSub (JsNum.num qa) (JsNum.num qb) = JsNum.num (qa - qb) := rfl
  rw [hsub]
  simp only [jsPos]
  by_cases h : 0 < qa - qb
  · rw [if_pos h]
    simp only [Bool.not_true]
    constructor
    · intro hf
      exact Bool.noConfusion hf
    · intro hle
      exact absurd (sub_pos.mp h) (not_lt.mpr hle)
  · rw [if_neg h]
    simp only [Bool.not_false]
    constructor
    · intro _
      exact sub_nonpos.mp (not_lt.mp h)
    · intro _
      trivial

/-- Unfolding the stable sort one element. -/
theorem jsSortByPort_cons (y : Listener) (ys : List Listener) :
    jsSortByPort (y :: ys) = sortInsert y (jsSortByPort ys) := rfl

/-- Membership is preserved by the stable sort. -/
theorem mem_jsSortByPort (l : List Listener) (x : Listener) :
    x ∈ jsSortByPort l ↔ x ∈ l := by
  induction l with
  | nil => simp [jsSortByPort]
  | cons y ys ih =>
    rw [jsSortByPort_cons, mem_sortInsert, ih, List.mem_cons]

/-- Inserting into a port-sorted list of finite-port listeners keeps it
sorted. -/
theorem sortInsert_sorted (x : Listener)
    (hx : ∃ q : ℚ, x.port = JsNum.num q) :
    ∀ (l : List Listener),
    (∀ y ∈ l, ∃ q : ℚ, y.port = JsNum.num q) →
    l.Pairwise (fun a b => portVal a ≤ portVal b) →
    (sortInsert x l).Pairwise (fun a b => portVal a ≤ portVal b) := by
  intro l
  induction l with
  | nil =>
    intro _ _
    simp [sortInsert]
  | cons y ys ih =>
    intro hl hs
    obtain ⟨qx, hqx⟩ := hx
    obtain ⟨qy, hqy⟩ := hl y (List.mem_cons_self y ys)
    rw [List.pairwise_cons] at hs
    unfold sortInsert
    by_cases h : jsLePort x y = true
    · rw [if_pos h]
      have hxy : portVal x ≤ portVal y := by
        rw [portVal_num x qx hqx, portVal_num y qy hqy]
        exact (jsLePort_num x y qx qy hqx hqy).mp h
      rw [List.pairwise_cons]
      refine ⟨?_, List.pairwise_cons.mpr hs⟩
      intro z hz
      rcases List.mem_cons.mp hz with rfl | hz2
      · exact hxy
      · exact le_trans hxy (hs.1 z hz2)
    · rw [if_neg h]
      have hyx : portVal y ≤ portVal x := by
        have hgt : ¬(qx ≤ qy) := fun hle =>
          h ((jsLePort_num x y qx qy hqx hqy).mpr hle)
        rw [portVal_num x qx hqx, portVal_num y qy hqy]
        exact le_of_lt (not_le.mp hgt)
      rw [List.pairwise_cons]
      constructor
      · intro z hz
        rcases (mem_sortInsert x z ys).mp hz with rfl | hz2
        · exact hyx
        · exact hs.1 z hz2
      · exact ih (fun w hw => hl w (List.mem_cons_of_mem y hw)) hs.2

/-- The model of `merged.sort((a, b) => a.port - b.port)` produces a
port-sorted list whenever all ports are finite. -/
theorem jsSortByPort_sorted :
    ∀ (l : List Listener),
    (∀ y ∈ l, ∃ q : ℚ, y.port = JsNum.num q) →
    (jsSortByPort l).Pairwise (fun a b => portVal a ≤ portVal b) := by
  intro l
  induction l with
  | nil =>
    intro _
    simp [jsSortByPort]
  | cons y ys ih =>
    intro hl
    rw [jsSortByPort_cons]
    exact sortInsert_sorted y (hl y (List.mem_cons_self y ys))
      (jsSortByPort ys)
      (fun w hw => hl w (List.mem_cons_of_mem y ((mem_jsSortByPort ys w).mp hw)))
      (ih fun w hw => hl w (List.mem_cons_of_mem y hw))

/-- The enrichment step never changes the port. -/
theorem enrich_port (stats : JsNum → Option PidStats)
    (extra : JsNum → Option PidExtra) (b : Listener) :
    (enrich stats extra b).port = b.port := rfl

/-- The dedup key is a function of the identity key alone. -/
theorem keyString_congr (a b : Listener) (h : idKey a = idKey b) :
    keyString a = keyString b := by
  simp only [idKey, Prod.mk.injEq] at h
  unfold keyString keyChars
  rw [h.1, h.2.1, h.2.2.1, h.2.2.2]

/-- Replacing the value at one key leaves the key list unchanged. -/
theorem mapSet_replace_fst (m : List (String × Listener)) (k : String)
    (v : Listener) :
    ((m.map fun p => if p.1 = k then (k, v) else p).map Prod.fst) =
      m.map Prod.fst := by
  induction m with
  | nil => rfl
  | cons p ps ih =>
    simp only [List.map_cons]
    rw [ih]
    congr 1
    split_ifs with h
    · exact h.symm
    · rfl

/-- Replacing the value at one key by a value of the same port leaves
the port-value list unchanged. -/
theorem mapSet_replace_portVals (m : List (String × Listener)) (k : String)
    (v : Listener)
    (hkv : ∀ p ∈ m, p.1 = k → portVal p.2 = portVal v) :
    ((m.map fun p => if p.1 = k then (k, v) else p).map
        fun p => portVal p.2) =
      m.map fun p => portVal p.2 := by
  induction m with
  | nil => rfl
  | cons p ps ih =>
    simp only [List.map_cons]
    rw [ih fun q hq hq2 => hkv q (List.mem_cons_of_mem p hq) hq2]
    congr 1
    split_ifs with h
    · exact (hkv p (List.mem_cons_self p ps) h).symm
    · rfl

/-- Invariants of the JS-Map fold of `hostItems`: starting from a
well-keyed, key-distinct, port-sorted map whose values all precede the
remaining sorted input, the fold preserves well-keyedness, key
distinctness and port-sortedness.  Key distinctness of the final map
is what bounds the output to one listener per key. -/
theorem dedup_fold :
    ∀ (ls : List Listener) (m : List (String × Listener)),
    (∀ kv ∈ m, keyString kv.2 = kv.1) →
    (m.map Prod.fst).Pairwise (fun a b => a ≠ b) →
    (m.map fun p => portVal p.2).Pairwise (fun a b => a ≤ b) →
    (∀ kv ∈ m, ∃ n : ℕ, kv.2.port = JsNum.num (n : ℚ)) →
    (∀ l ∈ ls, ∃ n : ℕ, l.port = JsNum.num (n : ℚ)) →
    (∀ kv ∈ m, ∀ x ∈ ls, portVal kv.2 ≤ portVal x) →
    ls.Pairwise (fun a b => portVal a ≤ portVal b) →
    (∀ kv ∈ ls.foldl (fun m2 l => mapSet m2 (keyString l) l) m,
      keyString kv.2 = kv.1) ∧
    ((ls.foldl (fun m2 l => mapSet m2 (keyString l) l) m).map
      Prod.fst).Pairwise (fun a b => a ≠ b) ∧
    ((ls.foldl (fun m2 l => mapSet m2 (keyString l) l) m).map
      fun p => portVal p.2).Pairwise (fun a b => a ≤ b) := by
  intro ls
  induction ls with
  | nil =>
    intro m h1 h2 h3 _ _ _ _
    exact ⟨h1, h2, h3⟩
  | cons l ls2 ih =>
    intro m h1 h2 h3 h4 h5 h6 h7
    rw [List.foldl_cons]
    have hl7 := List.pairwise_cons.mp h7
    by_cases hmem : m.any (fun p => p.1 = keyString l) = true
    · have hrepl : mapSet m (keyString l) l =
          m.map fun p => if p.1 = keyString l then (keyString l, l) else p := by
        unfold mapSet
        rw [if_pos hmem]
      rw [hrepl]
      have hsameport : ∀ p ∈ m, p.1 = keyString l →
          portVal p.2 = portVal l := by
        intro p hp hpk
        obtain ⟨np, hnp⟩ := h4 p hp
        obtain ⟨nl, hnl⟩ := h5 l (List.mem_cons_self l ls2)
        have hk : keyString p.2 = keyString l := by
          rw [h1 p hp]
          exact hpk
        have hne := key_port_eq p.2 l np nl hnp hnl hk
        rw [portVal_num p.2 np hnp, portVal_num l nl hnl, hne]
      apply ih
      · intro kv hkv
        obtain ⟨p, hp, hfp⟩ := List.mem_map.mp hkv
        by_cases hpk : p.1 = keyString l
        · rw [if_pos hpk] at hfp
          rw [← hfp]
        · rw [if_neg hpk] at hfp
          rw [← hfp]
          exact h1 p hp
      · rw [mapSet_replace_fst]
        exact h2
      · rw [mapSet_replace_portVals m (keyString l) l hsameport]
        exact h3
      · intro kv hkv
        obtain ⟨p, hp, hfp⟩ := List.mem_map.mp hkv
        by_cases hpk : p.1 = keyString l
        · rw [if_pos hpk] at hfp
          rw [← hfp]
          exact h5 l (List.mem_cons_self l ls2)
        · rw [if_neg hpk] at hfp
          rw [← hfp]
          exact h4 p hp
      · exact fun x hx => h5 x (List.mem_cons_of_mem l hx)
      · intro kv hkv x hx
        obtain ⟨p, hp, hfp⟩ := List.mem_map.mp hkv
        by_cases hpk : p.1 = keyString l
        · rw [if_pos hpk] at hfp
          rw [← hfp]
          exact hl7.1 x hx
        · rw [if_neg hpk] at hfp
          rw [← hfp]
          exact h6 p hp x (List.mem_cons_of_mem l hx)
      · exact hl7.2
    · have hmemf : m.any (fun p => p.1 = keyString l) = false := by
        revert hmem
        cases m.any (fun p => p.1 = keyString l) <;> simp
      have happ : mapSet m (keyString l) l = m ++ [(keyString l, l)] := by
        unfold mapSet
        rw [hmemf]
        rfl
      rw [happ]
      have hknotin : ∀ p ∈ m, ¬(p.1 = keyString l) := by
        intro p hp hpk
        have hany : m.any (fun p => p.1 = keyString l) = true :=
          List.any_eq_true.mpr ⟨p, hp, by simp [hpk]⟩
        rw [hmemf] at hany
        exact Bool.noConfusion hany
      apply ih
      · intro kv hkv
        rcases List.mem_append.mp hkv with hin | hin
        · exact h1 kv hin
        · rw [List.mem_singleton] at hin
          rw [hin]
      · rw [List.map_append, List.pairwise_append]
        refine ⟨h2, by simp, ?_⟩
        intro a ha b hb
        simp only [List.map_cons, List.map_nil, List.mem_singleton] at hb
        obtain ⟨p, hp, hpa⟩ := List.mem_map.mp ha
        rw [← hpa, hb]
        exact hknotin p hp
      · rw [List.map_append, List.pairwise_append]
        refine ⟨h3, by simp, ?_⟩
        intro a ha b hb
        simp only [List.map_cons, List.map_nil, List.mem_singleton] at hb
        obtain ⟨p, hp, hpa⟩ := List.mem_map.mp ha
        rw [← hpa, hb]
        exact h6 p hp l (List.mem_cons_self l ls2)
      · intro kv hkv
        rcases List.mem_append.mp hkv with hin | hin
        · exact h4 kv hin
        · rw [List.mem_singleton] at hin
          rw [hin]
          exact h5 l (List.mem_cons_self l ls2)
      · exact fun x hx => h5 x (List.mem_cons_of_mem l hx)
      · intro kv hkv x hx
        rcases List.mem_append.mp hkv with hin | hin
        · exact h6 kv hin x (List.mem_cons_of_mem l hx)
        · rw [List.mem_singleton] at hin
          rw [hin]
          exact hl7.1 x hx
      · exact hl7.2

/-- C6: for every input multiset of base records (with model-valid
natural-number ports) and arbitrary enrichment results, the aggregated
listener collection of a cycle — the enriched, port-sorted list
deduplicated through the JS Map of `hostItems` — contains at most one
Listener per distinct (pid, address, port, protocol) identity key and
is ordered non-decreasingly by port.  The tie-break among equal ports
is deterministic within a cycle because the whole pipeline is a pure
function of its inputs and the sort is modelled as the stable sort
ES2019 guarantees. -/
theorem C6_dedup_and_sorted (stats : JsNum → Option PidStats)
    (extra : JsNum → Option PidExtra) (base : List Listener)
    (currentUser : String)
    (hports : ∀ l ∈ base, ∃ n : ℕ, n ≤ 65535 ∧ l.port = JsNum.num (n : ℚ)) :
    (hostItems currentUser false (aggregate stats extra base)).Pairwise
      (fun a b => idKey a ≠ idKey b) ∧
    (hostItems currentUser false (aggregate stats extra base)).Pairwise
      (fun a b => portVal a ≤ portVal b) := by
  have hagg : ∀ y ∈ aggregate stats extra base,
      ∃ n : ℕ, y.port = JsNum.num (n : ℚ) := by
    intro y hy
    unfold aggregate at hy
    rw [mem_jsSortByPort] at hy
    obtain ⟨b, hb, hby⟩ := List.mem_map.mp hy
    obtain ⟨n, _, hn⟩ := hports b hb
    refine ⟨n, ?_⟩
    rw [← hby, enrich_port]
    exact hn
  have hsorted : (aggregate stats extra base).Pairwise
      (fun a b => portVal a ≤ portVal b) := by
    unfold aggregate
    apply jsSortByPort_sorted
    intro y hy
    obtain ⟨b, hb, hby⟩ := List.mem_map.mp hy
    obtain ⟨n, _, hn⟩ := hports b hb
    refine ⟨(n : ℚ), ?_⟩
    rw [← hby, enrich_port]
    exact hn
  have hfilter : (aggregate stats extra base).filter
      (fun l => !(false && isSystem currentUser l)) =
      aggregate stats extra base :=
    List.filter_eq_self.mpr fun a _ => by simp
  have hfold := dedup_fold (aggregate stats extra base) []
    (fun kv hkv => absurd hkv (List.not_mem_nil kv))
    (by simp)
    (by simp)
    (fun kv hkv => absurd hkv (List.not_mem_nil kv))
    hagg
    (fun kv hkv => absurd hkv (List.not_mem_nil kv))
    hsorted
  unfold hostItems
  rw [hfilter]
  constructor
  · rw [List.pairwise_map]
    have hkeys := hfold.2.1
    rw [List.pairwise_map] at hkeys
    have hI1 := hfold.1
    exact hkeys.imp_of_mem fun {p q} hp hq hne heq =>
      hne (by
        rw [← hI1 p hp, ← hI1 q hq]
        exact keyString_congr p.2 q.2 heq)
  · rw [List.pairwise_map]
    have hvals := hfold.2.2
    rw [List.pairwise_map] at hvals
    exact hvals

/-- Witness for C6 on a concrete cycle: two listeners sharing the
identity key (pid 7, `*`, 8080, tcp) and one listener on port 80, with
empty enrichment. -/
theorem C6_witness :
    (hostItems "u" false (aggregate (fun _ => none) (fun _ => none)
      [{ pid := .num 7, cmd := "node", address := "*", port := .num 8080,
         protocol := .tcp },
       { pid := .num 9, cmd := "python", address := "127.0.0.1",
         port := .num 80, protocol := .tcp },
       { pid := .num 7, cmd := "node", user := some "x", address := "*",
         port := .num 8080, protocol := .tcp }])).Pairwise
      (fun a b => idKey a ≠ idKey b) ∧
    (hostItems "u" false (aggregate (fun _ => none) (fun _ => none)
      [{ pid := .num 7, cmd := "node", address := "*", port := .num 8080,
         protocol := .tcp },
       { pid := .num 9, cmd := "python", address := "127.0.0.1",
         port := .num 80, protocol := .tcp },
       { pid := .num 7, cmd := "node", user := some "x", address := "*",
         port := .num 8080, protocol := .tcp }])).Pairwise
      (fun a b => portVal a ≤ portVal b) :=
  C6_dedup_and_sorted (fun _ => none) (fun _ => none) _ "u" (by
    intro l hl
    fin_cases hl
    · exact ⟨8080, by norm_num, by norm_num⟩
    · exact ⟨80, by norm_num, by norm_num⟩
    · exact ⟨8080, by norm_num, by norm_num⟩)

end LocalhostManager
